import Mathlib

/-!
Verification of the path-indexed JSON editing helpers of
`src/features/modals/NodeModal/index.tsx`.

The JavaScript value universe visible to this component is modelled by
`JSVal`; the distinguished JavaScript `undefined` is the constructor
`JSVal.undef` (it is the not-found result of `getValueByPath`).  Objects
are ordered association lists, matching JavaScript property insertion
order; numbers are modelled as integers (all numbers appearing in the
specification and its examples are integers).  A JSONPath segment is
either an array index (a JavaScript number) or an object key (a string);
an optional path (`Option (List Seg)`) models the `path?` parameters,
`none` being JavaScript `undefined`.
-/

/-- A JSONPath segment: a numeric array index or a string object key. -/
inductive Seg where
  | idx (n : Nat)
  | key (s : String)
deriving DecidableEq, Repr

/-- JavaScript values handled by the editor: undefined, null, booleans,
numbers, strings, arrays and plain objects (ordered field lists). -/
inductive JSVal where
  | undef
  | null
  | bool (b : Bool)
  | num (n : Int)
  | str (s : String)
  | arr (elems : List JSVal)
  | obj (fields : List (String × JSVal))
deriving Repr

/-- JavaScript property read `o[k]`: first binding of the key, or
undefined when the key is absent. -/
def objGet : List (String × JSVal) → String → JSVal
  | [], _ => JSVal.undef
  | (k, v) :: rest, k2 => if k = k2 then v else objGet rest k2

/-- JavaScript property write `o[k] = v`: replaces the first binding of
the key in place (property order is preserved) or appends a new binding. -/
def objSet : List (String × JSVal) → String → JSVal → List (String × JSVal)
  | [], k2, v => [(k2, v)]
  | (k, w) :: rest, k2, v =>
    if k = k2 then (k, v) :: rest else (k, w) :: objSet rest k2 v

/-- JavaScript array element write `a[n] = v`: replaces in bounds,
otherwise extends the array, the gap reading back as undefined. -/
def listSet : List JSVal → Nat → JSVal → List JSVal
  | [], 0, v => [v]
  | [], Nat.succ n, v => JSVal.undef :: listSet [] n v
  | _ :: xs, 0, v => v :: xs
  | x :: xs, Nat.succ n, v => x :: listSet xs n v

/-- The traversal loop of `getValueByPath`: numeric segments require an
array, string segments require a non-array non-null object; any
mismatch (including reaching null or undefined mid-path) yields
undefined. -/
def getLoop : JSVal → List Seg → JSVal
  | cur, [] => cur
  | JSVal.arr xs, Seg.idx n :: rest => getLoop (xs.getD n JSVal.undef) rest
  | JSVal.obj fs, Seg.key k :: rest => getLoop (objGet fs k) rest
  | _, _ :: _ => JSVal.undef

/-- Model of `getValueByPath(root, path?)`: an absent or empty path
returns the root. -/
def getValueByPath (root : JSVal) : Option (List Seg) → JSVal
  | none => root
  | some segs => getLoop root segs

/-- The array coercion of `setAt`: `Array.isArray(node) ? [...node] : []`. -/
def asArr : JSVal → List JSVal
  | JSVal.arr xs => xs
  | _ => []

/-- The object coercion of `setAt` and `mergePrimitivesAtPath`:
`node && typeof node === "object" && !Array.isArray(node) ? spread-copy : empty`. -/
def asObjFields : JSVal → List (String × JSVal)
  | JSVal.obj fs => fs
  | _ => []

/-- Model of the inner `setAt(node, pathSegs)` closure of
`setValueByPath` (the written value is the first argument): a numeric
head coerces the node to a fresh array copy (empty if the node is not an
array), a string head to a fresh object copy (empty if the node is not a
non-array non-null object), writes at the final segment and otherwise
recurses into the existing child. -/
def setAt (value : JSVal) : JSVal → Seg → List Seg → JSVal
  | node, Seg.idx n, [] => JSVal.arr (listSet (asArr node) n value)
  | node, Seg.key k, [] => JSVal.obj (objSet (asObjFields node) k value)
  | node, Seg.idx n, h :: t =>
    JSVal.arr (listSet (asArr node) n (setAt value ((asArr node).getD n JSVal.undef) h t))
  | node, Seg.key k, h :: t =>
    JSVal.obj (objSet (asObjFields node) k (setAt value (objGet (asObjFields node) k) h t))

/-- Model of `setValueByPath(root, path?, value)`: an absent or empty
path replaces the root by the value outright. -/
def setValueByPath (root : JSVal) (path : Option (List Seg)) (value : JSVal) : JSVal :=
  match path with
  | none => value
  | some [] => value
  | some (h :: t) => setAt value root h t

/-- True exactly for the values skipped by the merge loop: arrays and
non-null objects (in JavaScript, `v !== null && typeof v === "object"`). -/
def isStructural : JSVal → Bool
  | JSVal.obj _ => true
  | JSVal.arr _ => true
  | _ => false

/-- The `for (const [k, v] of Object.entries(partial))` loop of
`mergePrimitivesAtPath`: structural values are skipped, every other
value is assigned onto the base object. -/
def mergeLoop : List (String × JSVal) → List (String × JSVal) → List (String × JSVal)
  | base, [] => base
  | base, (k, v) :: rest =>
    if isStructural v then mergeLoop base rest else mergeLoop (objSet base k v) rest

/-- Model of `mergePrimitivesAtPath(root, path?, partial)`: reads the
current value at the path, takes a copy of it when it is a non-array
non-null object (the empty object otherwise), merges the non-structural
entries of the proposed mapping onto it, and writes the result back at
the same path. -/
def mergePrimitivesAtPath (root : JSVal) (path : Option (List Seg))
    (updates : List (String × JSVal)) : JSVal :=
  setValueByPath root path (JSVal.obj (mergeLoop (asObjFields (getValueByPath root path)) updates))

/-- Elementwise strict-equality loop of `pathsEqual`, run after the
length check; a numeric segment is never equal to a string segment. -/
def segsEq : List Seg → List Seg → Bool
  | [], [] => true
  | x :: xs, y :: ys => x = y && segsEq xs ys
  | _, _ => false

/-- Model of `pathsEqual(a?, b?)`: the `a === b` fast path makes two
absent paths equal, `!a || !b` makes an absent path unequal to any
present one (even the empty one), and present paths compare by length
and elementwise strict equality. -/
def pathsEqual : Option (List Seg) → Option (List Seg) → Bool
  | none, none => true
  | none, some _ => false
  | some _, none => false
  | some a, some b => if a.length ≠ b.length then false else segsEq a b

/-- Rendering of one segment inside `jsonPathToString`: numbers bare,
strings double-quoted (no escaping in the source). -/
def segStr : Seg → String
  | Seg.idx n => toString n
  | Seg.key s => "\"" ++ s ++ "\""

/-- Model of JavaScript `Array.prototype.join(sep)` on an array of
strings. -/
def joinSep (sep : String) : List String → String
  | [] => ""
  | [s] => s
  | a :: b :: t => a ++ sep ++ joinSep sep (b :: t)

/-- Model of `jsonPathToString(path?)`. -/
def jsonPathToString : Option (List Seg) → String
  | none => "$"
  | some [] => "$"
  | some segs => "$[" ++ joinSep "][" (segs.map segStr) ++ "]"

/-- Convenience form of `setValueByPath` on a present path, used to state
inductions over a path split into a shared front part and a tail. -/
def setSegs (value node : JSVal) : List Seg → JSVal
  | [] => value
  | h :: t => setAt value node h t

/-- Two segments are of the same kind when both are numeric indices or
both are string keys. -/
def sameKind : Seg → Seg → Bool
  | Seg.idx _, Seg.idx _ => true
  | Seg.key _, Seg.key _ => true
  | _, _ => false

/-- Modelled from the specification text of `mergePrimitivesAtPath`
(section 4.3): the current value at the path, taken as the empty object
when absent or not a non-array object, with every proposed entry whose
value is not a non-null object or array folded in as an overwrite, is
written back at the same path. -/
def mergePrimitivesSpec (root : JSVal) (path : Option (List Seg))
    (updates : List (String × JSVal)) : JSVal :=
  let current := getValueByPath root path
  let base := match current with | JSVal.obj fs => fs | _ => []
  setValueByPath root path
    (JSVal.obj (updates.foldl (fun b kv => if isStructural kv.2 then b else objSet b kv.1 kv.2) base))

/-- Modelled from the specification text of `jsonPathToString`
(section 4.5): one bracketed segment per path element, in order. -/
def bracketAll : List Seg → String
  | [] => ""
  | s :: t => "[" ++ segStr s ++ "]" ++ bracketAll t

mutual

/-- Model of JavaScript template-literal rendering of a value, as used
by the single-keyless-row branch of `normalizeNodeData`: numbers render
in decimal, strings render raw, booleans and null by name, undefined as
the word undefined, arrays by comma-joining their elements with null and
undefined elements rendered empty, and plain objects as the usual
object tag. -/
def jsToString : JSVal → String
  | JSVal.undef => "undefined"
  | JSVal.null => "null"
  | JSVal.bool true => "true"
  | JSVal.bool false => "false"
  | JSVal.num n => toString n
  | JSVal.str s => s
  | JSVal.arr xs => jsToStringItems xs
  | JSVal.obj _ => "[object Object]"

/-- Comma-joined element rendering of `Array.prototype.toString`, with
null and undefined elements rendered empty. -/
def jsToStringItems : List JSVal → String
  | [] => ""
  | x :: t =>
    (match x with
     | JSVal.undef => ""
     | JSVal.null => ""
     | y => jsToString y)
    ++ (match t with | [] => "" | _ :: _ => "," ++ jsToStringItems t)

end

/-- A run of space characters, for 2-space JSON indentation. -/
def spaces (n : Nat) : String := String.mk (List.replicate n ' ')

/-- Lower-case hexadecimal digit, for JSON string control escapes. -/
def hexDigit (n : Nat) : String :=
  if n < 10 then toString n else String.singleton (Char.ofNat (87 + n))

/-- JSON escaping of one character as performed by `JSON.stringify`. -/
def escapeChar (c : Char) : String :=
  if c = '"' then "\\\""
  else if c = '\\' then "\\\\"
  else if c = Char.ofNat 8 then "\\b"
  else if c = Char.ofNat 12 then "\\f"
  else if c = '\n' then "\\n"
  else if c = '\r' then "\\r"
  else if c = '\t' then "\\t"
  else if c.toNat < 32 then "\\u00" ++ hexDigit (c.toNat / 16) ++ hexDigit (c.toNat % 16)
  else String.singleton c

/-- A JSON string literal: the escaped text between double quotes. -/
def quoteJSON (s : String) : String :=
  "\"" ++ String.join (s.data.map escapeChar) ++ "\""

mutual

/-- Model of `JSON.stringify(v, null, 2)` at nesting depth `d`.  Object
members whose value is undefined are skipped (as `JSON.stringify` does);
an undefined array element renders as null.  The component only ever
stringifies objects and values parsed from JSON text, so the rendering
chosen for a bare undefined never arises. -/
def stringifyV : JSVal → Nat → String
  | JSVal.undef, _ => "null"
  | JSVal.null, _ => "null"
  | JSVal.bool true, _ => "true"
  | JSVal.bool false, _ => "false"
  | JSVal.num n, _ => toString n
  | JSVal.str s, _ => quoteJSON s
  | JSVal.arr [], _ => "[]"
  | JSVal.arr (x :: t), d =>
    "[\n" ++ joinSep ",\n" (stringifyItems (x :: t) (d + 1)) ++ "\n" ++ spaces (2 * d) ++ "]"
  | JSVal.obj fs, d =>
    match stringifyMembers fs (d + 1) with
    | [] => "\x7b\x7d"
    | m :: ms => "\x7b\n" ++ joinSep ",\n" (m :: ms) ++ "\n" ++ spaces (2 * d) ++ "\x7d"

/-- One indented line per array element, at depth `d`. -/
def stringifyItems : List JSVal → Nat → List String
  | [], _ => []
  | x :: t, d => (spaces (2 * d) ++ stringifyV x d) :: stringifyItems t d

/-- One indented `"key": value` line per object member whose value is
not undefined, at depth `d`. -/
def stringifyMembers : List (String × JSVal) → Nat → List String
  | [], _ => []
  | (_, JSVal.undef) :: t, d => stringifyMembers t d
  | (k, v) :: t, d => (spaces (2 * d) ++ quoteJSON k ++ ": " ++ stringifyV v d) :: stringifyMembers t d

end

/-- A flattened node row as carried in `NodeData.text`: an optional key,
a value, and the type tag of the row. -/
structure Row where
  key : Option String
  value : JSVal
  rtype : String

/-- JavaScript truthiness of a row key: absent and empty keys are falsy. -/
def keyTruthy : Option String → Bool
  | none => false
  | some s => s ≠ ""

/-- Key of `nodeRows[0]` (absent when there are no rows). -/
def headKey : List Row → Option String
  | [] => none
  | r :: _ => r.key

/-- Value of `nodeRows[0]` (undefined when there are no rows). -/
def headValue : List Row → JSVal
  | [] => JSVal.undef
  | r :: _ => r.value

/-- One step of the `forEach` loop of `normalizeNodeData`: rows tagged
array or object are dropped, rows without a truthy key are dropped, and
every other row assigns its value under its key. -/
def addRow (o : List (String × JSVal)) (r : Row) : List (String × JSVal) :=
  if r.rtype = "array" ∨ r.rtype = "object" then o
  else match r.key with
    | none => o
    | some k => if k = "" then o else objSet o k r.value

/-- Modelled from the specification text of `normalizeNodeData`
(section 4.4): the object built, in row order, from every row that has
a key and is not tagged array or object. -/
def rowsObjectSpec (rows : List Row) : List (String × JSVal) :=
  (rows.filter (fun r => keyTruthy r.key && !(r.rtype = "array" ∨ r.rtype = "object" : Bool))).foldl
    (fun o r => objSet o (r.key.getD "") r.value) []

/-- Model of `normalizeNodeData(nodeRows?)`: no rows give the literal
two-character object text; a single row with a falsy key renders its raw
value as a template literal; otherwise the primitive rows are collected
into an object which is serialized with 2-space indentation. -/
def normalizeNodeData (rows : Option (List Row)) : String :=
  match rows with
  | none => "\x7b\x7d"
  | some rs =>
    if rs.length = 0 then "\x7b\x7d"
    else if rs.length = 1 ∧ keyTruthy (headKey rs) = false then jsToString (headValue rs)
    else stringifyV (JSVal.obj (rs.foldl addRow [])) 0

/-- The `isPrimitiveNode` convention of the save handler: the selected
node is primitive when its row list is present, has exactly one row, and
that row has a falsy key. -/
def isPrimitiveNode : Option (List Row) → Bool
  | none => false
  | some [r] => !(keyTruthy r.key)
  | some _ => false

/-- Outcome of one click of the Save button. -/
inductive SaveOutcome where
  | docCorrupt
  | draftUnparseable
  | shapeMismatchPrimitive
  | shapeMismatchObject
  | saved (newRoot : JSVal)

/-- Model of the Save button handler of `NodeModal`.  `JSON.parse` is a
JavaScript builtin, modelled as an oracle: `rootParse` is the parse
result of the document store contents (`none` when it throws) and
`draftParse` the parse result of the draft text (`none` when it throws,
which surfaces through the outer catch).  A primitive node (single
keyless row) accepts any non-object non-array parsed draft and replaces
the value at the node path outright; any other node accepts only a
plain object and merges its primitive fields at the node path. -/
def saveClick (rootParse : Option JSVal) (draftParse : Option JSVal)
    (rows : Option (List Row)) (path : Option (List Seg)) : SaveOutcome :=
  match rootParse with
  | none => SaveOutcome.docCorrupt
  | some root =>
    match draftParse with
    | none => SaveOutcome.draftUnparseable
    | some parsed =>
      if isPrimitiveNode rows then
        match parsed with
        | JSVal.obj _ => SaveOutcome.shapeMismatchPrimitive
        | JSVal.arr _ => SaveOutcome.shapeMismatchPrimitive
        | _ => SaveOutcome.saved (setValueByPath root path parsed)
      else
        match parsed with
        | JSVal.obj fs => SaveOutcome.saved (mergePrimitivesAtPath root path fs)
        | _ => SaveOutcome.shapeMismatchObject

/-- The modal edit-session state the save handler can touch: the editing
flag and the draft text. -/
structure ModalSession where
  isEditing : Bool
  draft : String

/-- Effect of a save outcome on the session and on the document store:
the second component is the `contents` string passed to `setContents`,
or `none` when `setContents` is not called.  Every abort path only
raises an alert, leaving the session and the store untouched; a
successful save serializes the new root with 2-space indentation and
exits edit mode, keeping the draft buffer as it is. -/
def applySave (st : ModalSession) (o : SaveOutcome) : ModalSession × Option String :=
  match o with
  | SaveOutcome.saved newRoot =>
    (ModalSession.mk false st.draft, some (stringifyV newRoot 0))
  | _ => (st, none)

/-- One full save attempt: classify via `saveClick`, then apply its
effect. -/
def saveAttempt (st : ModalSession) (rootParse draftParse : Option JSVal)
    (rows : Option (List Row)) (path : Option (List Seg)) : ModalSession × Option String :=
  applySave st (saveClick rootParse draftParse rows path)

/-- True exactly for plain objects, the only shape accepted for an
object-like node by the save handler. -/
def isPlainObj : JSVal → Bool
  | JSVal.obj _ => true
  | _ => false

/-- Shape rejection of a parsed draft for a node kind, as in the claim:
a primitive node rejects objects and arrays, an object-like node
rejects everything but a plain object. -/
def wrongShape (primNode : Bool) (parsed : JSVal) : Bool :=
  if primNode then isStructural parsed else !(isPlainObj parsed)

lemma listSet_getD_eq (n : Nat) : ∀ (xs : List JSVal) (v : JSVal),
    (listSet xs n v).getD n JSVal.undef = v := by
  induction n with
  | zero => intro xs v; cases xs <;> rfl
  | succ n ih =>
    intro xs v
    cases xs with
    | nil => simpa [listSet] using ih [] v
    | cons x xs => simpa [listSet] using ih xs v

lemma listSet_getD_ne (n : Nat) : ∀ (m : Nat), n ≠ m → ∀ (xs : List JSVal) (v : JSVal),
    (listSet xs n v).getD m JSVal.undef = xs.getD m JSVal.undef := by
  induction n with
  | zero =>
    intro m hm xs v
    cases m with
    | zero => exact absurd rfl hm
    | succ m => cases xs <;> simp [listSet]
  | succ n ih =>
    intro m hm xs v
    cases m with
    | zero => cases xs <;> simp [listSet]
    | succ m =>
      have hnm : n ≠ m := fun e => hm (congrArg Nat.succ e)
      cases xs with
      | nil => simpa [listSet] using ih m hnm [] v
      | cons x xs => simpa [listSet] using ih m hnm xs v

lemma objGet_objSet_eq : ∀ (fs : List (String × JSVal)) (k : String) (v : JSVal),
    objGet (objSet fs k v) k = v := by
  intro fs k v
  induction fs with
  | nil => simp [objSet, objGet]
  | cons p rest ih =>
    obtain ⟨k1, w⟩ := p
    by_cases hk : k1 = k <;> simp [objSet, objGet, hk, ih]

lemma objGet_objSet_ne (k k2 : String) (h : k ≠ k2) :
    ∀ (fs : List (String × JSVal)) (v : JSVal),
      objGet (objSet fs k v) k2 = objGet fs k2 := by
  intro fs v
  induction fs with
  | nil => simp [objSet, objGet, h]
  | cons p rest ih =>
    obtain ⟨k1, w⟩ := p
    by_cases hk : k1 = k
    · subst hk
      have : k1 ≠ k2 := h
      simp [objSet, objGet, this]
    · have h2 : ¬k2 = k := fun e => h e.symm
      by_cases hk2 : k1 = k2 <;> simp [objSet, objGet, hk, hk2, h2, ih]

lemma getLoop_undef : ∀ (t : List Seg), getLoop JSVal.undef t = JSVal.undef := by
  intro t; cases t <;> rfl

lemma getLoop_nil (v : JSVal) : getLoop v [] = v := by cases v <;> rfl

lemma getLoop_append (A : List Seg) : ∀ (B : List Seg) (root : JSVal),
    getLoop root (A ++ B) = getLoop (getLoop root A) B := by
  induction A with
  | nil => intro B root; rw [List.nil_append, getLoop_nil]
  | cons s t ih =>
    intro B root
    cases root <;> cases s <;> simp [getLoop, ih, getLoop_undef]

lemma getLoop_setAt (V : JSVal) (S : List Seg) : ∀ (rest : List Seg) (head : Seg) (node : JSVal),
    getLoop (setAt V node head rest) (head :: (rest ++ S)) = getLoop V S := by
  intro rest
  induction rest with
  | nil =>
    intro head node
    cases head with
    | idx n =>
      have h1 : getLoop (setAt V node (Seg.idx n) []) (Seg.idx n :: ([] ++ S))
          = getLoop ((listSet (asArr node) n V).getD n JSVal.undef) S := rfl
      rw [h1, listSet_getD_eq]
    | key k =>
      have h1 : getLoop (setAt V node (Seg.key k) []) (Seg.key k :: ([] ++ S))
          = getLoop (objGet (objSet (asObjFields node) k V) k) S := rfl
      rw [h1, objGet_objSet_eq]
  | cons h t ih =>
    intro head node
    cases head with
    | idx n =>
      have h1 : getLoop (setAt V node (Seg.idx n) (h :: t)) (Seg.idx n :: ((h :: t) ++ S))
          = getLoop ((listSet (asArr node) n
              (setAt V ((asArr node).getD n JSVal.undef) h t)).getD n JSVal.undef)
              (h :: (t ++ S)) := rfl
      rw [h1, listSet_getD_eq]
      exact ih h ((asArr node).getD n JSVal.undef)
    | key k =>
      have h1 : getLoop (setAt V node (Seg.key k) (h :: t)) (Seg.key k :: ((h :: t) ++ S))
          = getLoop (objGet (objSet (asObjFields node) k
              (setAt V (objGet (asObjFields node) k) h t)) k)
              (h :: (t ++ S)) := rfl
      rw [h1, objGet_objSet_eq]
      exact ih h (objGet (asObjFields node) k)

lemma getValueByPath_set_append (R V : JSVal) (P S : List Seg) :
    getValueByPath (setValueByPath R (some P) V) (some (P ++ S)) = getLoop V S := by
  cases P with
  | nil => rfl
  | cons h t => exact getLoop_setAt V S t h R

/-- C1: for every root, every path of index and key segments and every
value, reading back at the path just written returns the written value. -/
theorem getValueByPath_setValueByPath_roundtrip (R V : JSVal) (P : List Seg) :
    getValueByPath (setValueByPath R (some P) V) (some P) = V := by
  cases P with
  | nil => exact getLoop_nil V
  | cons h t =>
    have h1 := getLoop_setAt V [] t h R
    rw [List.append_nil, getLoop_nil] at h1
    exact h1

/-- C8: the absent and the empty path denote the whole document for both
path operations: reading returns the root unchanged, writing replaces
the root outright by the given value. -/
theorem emptyPath_denotes_root :
    (∀ R : JSVal, getValueByPath R none = R)
    ∧ (∀ R : JSVal, getValueByPath R (some []) = R)
    ∧ (∀ (R V : JSVal), setValueByPath R none V = V)
    ∧ (∀ (R V : JSVal), setValueByPath R (some []) V = V) :=
  ⟨fun _ => rfl, fun R => getLoop_nil R, fun _ _ => rfl, fun _ _ => rfl⟩

/-- C10: pathsEqual treats an absent path as equal only to another
absent path: two absent paths compare equal, two empty paths compare
equal, but an absent path never equals a present one, not even the
empty path, although both denote the document root. -/
theorem pathsEqual_undefined_edge :
    pathsEqual none none = true
    ∧ pathsEqual (some []) (some []) = true
    ∧ pathsEqual none (some []) = false
    ∧ pathsEqual (some []) none = false :=
  ⟨rfl, rfl, rfl, rfl⟩

lemma listGetD_nil (n : Nat) : ([] : List JSVal).getD n JSVal.undef = JSVal.undef := by
  cases n <;> rfl

lemma getLoop_setAt_diverge (V node : JSVal) (p q : Seg) (tp tq : List Seg)
    (hne : p ≠ q) (hkind : sameKind p q = true) :
    getLoop (setAt V node p tp) (q :: tq) = getLoop node (q :: tq) := by
  cases p with
  | idx m =>
    cases q with
    | idx n =>
      have hmn : m ≠ n := fun e => hne (by rw [e])
      obtain ⟨X, hx⟩ : ∃ X, setAt V node (Seg.idx m) tp
          = JSVal.arr (listSet (asArr node) m X) := by
        cases tp with
        | nil => exact ⟨V, rfl⟩
        | cons h t => exact ⟨setAt V ((asArr node).getD m JSVal.undef) h t, rfl⟩
      rw [hx]
      have h2 : getLoop (JSVal.arr (listSet (asArr node) m X)) (Seg.idx n :: tq)
          = getLoop ((listSet (asArr node) m X).getD n JSVal.undef) tq := rfl
      rw [h2, listSet_getD_ne m n hmn]
      cases node
      case arr => rfl
      all_goals
        show getLoop (([] : List JSVal).getD n JSVal.undef) tq = _
        rw [listGetD_nil, getLoop_undef]
        rfl
    | key s => simp [sameKind] at hkind
  | key a =>
    cases q with
    | idx n => simp [sameKind] at hkind
    | key b =>
      have hab : a ≠ b := fun e => hne (by rw [e])
      obtain ⟨Y, hy⟩ : ∃ Y, setAt V node (Seg.key a) tp
          = JSVal.obj (objSet (asObjFields node) a Y) := by
        cases tp with
        | nil => exact ⟨V, rfl⟩
        | cons h t => exact ⟨setAt V (objGet (asObjFields node) a) h t, rfl⟩
      rw [hy]
      have h2 : getLoop (JSVal.obj (objSet (asObjFields node) a Y)) (Seg.key b :: tq)
          = getLoop (objGet (objSet (asObjFields node) a Y) b) tq := rfl
      rw [h2, objGet_objSet_ne a b hab]
      cases node
      case obj => rfl
      all_goals
        show getLoop JSVal.undef tq = _
        rw [getLoop_undef]
        rfl

lemma frame_aux (V : JSVal) (p q : Seg) (tp tq : List Seg)
    (hne : p ≠ q) (hkind : sameKind p q = true) :
    ∀ (pre : List Seg) (node : JSVal),
      getLoop (setSegs V node (pre ++ p :: tp)) (pre ++ q :: tq)
        = getLoop node (pre ++ q :: tq) := by
  intro pre
  induction pre with
  | nil => intro node; exact getLoop_setAt_diverge V node p q tp tq hne hkind
  | cons s pre ih =>
    intro node
    have hL : ∃ r0 rr, pre ++ p :: tp = r0 :: rr := by
      cases pre with
      | nil => exact ⟨p, tp, rfl⟩
      | cons a b => exact ⟨a, b ++ p :: tp, rfl⟩
    obtain ⟨r0, rr, hL⟩ := hL
    cases s with
    | idx m =>
      have hset : setSegs V node (Seg.idx m :: (pre ++ p :: tp))
          = JSVal.arr (listSet (asArr node) m
              (setSegs V ((asArr node).getD m JSVal.undef) (pre ++ p :: tp))) := by
        rw [hL]; rfl
      calc getLoop (setSegs V node (Seg.idx m :: (pre ++ p :: tp)))
              (Seg.idx m :: (pre ++ q :: tq))
          = getLoop (setSegs V ((asArr node).getD m JSVal.undef) (pre ++ p :: tp))
              (pre ++ q :: tq) := by
            rw [hset]
            show getLoop ((listSet (asArr node) m
                (setSegs V ((asArr node).getD m JSVal.undef) (pre ++ p :: tp))).getD m
                JSVal.undef) (pre ++ q :: tq) = _
            rw [listSet_getD_eq]
        _ = getLoop ((asArr node).getD m JSVal.undef) (pre ++ q :: tq) := ih _
        _ = getLoop node (Seg.idx m :: (pre ++ q :: tq)) := by
            cases node <;> simp [getLoop, asArr, getLoop_undef, List.getD_nil]
    | key k =>
      have hset : setSegs V node (Seg.key k :: (pre ++ p :: tp))
          = JSVal.obj (objSet (asObjFields node) k
              (setSegs V (objGet (asObjFields node) k) (pre ++ p :: tp))) := by
        rw [hL]; rfl
      calc getLoop (setSegs V node (Seg.key k :: (pre ++ p :: tp)))
              (Seg.key k :: (pre ++ q :: tq))
          = getLoop (setSegs V (objGet (asObjFields node) k) (pre ++ p :: tp))
              (pre ++ q :: tq) := by
            rw [hset]
            show getLoop (objGet (objSet (asObjFields node) k
                (setSegs V (objGet (asObjFields node) k) (pre ++ p :: tp))) k)
                (pre ++ q :: tq) = _
            rw [objGet_objSet_eq]
        _ = getLoop (objGet (asObjFields node) k) (pre ++ q :: tq) := ih _
        _ = getLoop node (Seg.key k :: (pre ++ q :: tq)) := by
            cases node <;> simp [getLoop, asObjFields, getLoop_undef, objGet]

lemma setValueByPath_some (R V : JSVal) (l : List Seg) :
    setValueByPath R (some l) V = setSegs V R l := by
  cases l <;> rfl

/-- C4 counterexample: the write and the diverging read use segments of
different kinds at the divergence point, the numeric write coerces the
object root into an array, and the value previously readable at the
diverging path is destroyed (the original key reads back as undefined
instead of 1). -/
theorem setValueByPath_frame_cex :
    getValueByPath (JSVal.obj [("x", JSVal.num 1)]) (some [Seg.key "x"]) = JSVal.num 1
    ∧ getValueByPath (setValueByPath (JSVal.obj [("x", JSVal.num 1)]) (some [Seg.idx 0]) JSVal.null)
        (some [Seg.key "x"]) = JSVal.undef
    ∧ getValueByPath (setValueByPath (JSVal.obj [("x", JSVal.num 1)]) (some [Seg.idx 0]) JSVal.null)
        (some [Seg.key "x"])
      ≠ getValueByPath (JSVal.obj [("x", JSVal.num 1)]) (some [Seg.key "x"]) := by
  refine ⟨rfl, rfl, ?_⟩
  intro h
  exact JSVal.noConfusion (h.symm.trans (rfl : getValueByPath
    (setValueByPath (JSVal.obj [("x", JSVal.num 1)]) (some [Seg.idx 0]) JSVal.null)
    (some [Seg.key "x"]) = JSVal.undef))

/-- C4 amended: in a pure value semantics `setValueByPath` cannot mutate
its argument, and the frame property holds for every read path that
diverges from the written path at a segment of the same kind (both
numeric indices or both string keys): the value read after the write is
the value read before it.  (When the diverging segments are of
different kinds the property fails, because the writer coerces the
container to the kind of its own segment; see the counterexample.) -/
theorem setValueByPath_frame (R V : JSVal) (pre tp tq : List Seg) (p q : Seg)
    (hne : p ≠ q) (hkind : sameKind p q = true) :
    getValueByPath (setValueByPath R (some (pre ++ p :: tp)) V) (some (pre ++ q :: tq))
      = getValueByPath R (some (pre ++ q :: tq)) := by
  have h := frame_aux V p q tp tq hne hkind pre R
  rw [setValueByPath_some]
  exact h

/-- C4 witness: writing index 0 of an array leaves index 1 readable and
unchanged. -/
theorem setValueByPath_frame_witness :
    getValueByPath (setValueByPath (JSVal.arr [JSVal.num 1, JSVal.num 2])
        (some [Seg.idx 0]) JSVal.null) (some [Seg.idx 1])
      = getValueByPath (JSVal.arr [JSVal.num 1, JSVal.num 2]) (some [Seg.idx 1]) :=
  setValueByPath_frame (JSVal.arr [JSVal.num 1, JSVal.num 2]) JSVal.null [] [] []
    (Seg.idx 0) (Seg.idx 1) (by decide) rfl

lemma mergeLoop_preserve (k : String) : ∀ (M fs : List (String × JSVal)),
    (∀ v, (k, v) ∈ M → isStructural v = true) →
    objGet (mergeLoop fs M) k = objGet fs k := by
  intro M
  induction M with
  | nil => intro fs _; rfl
  | cons kv rest ih =>
    intro fs h
    obtain ⟨k1, v1⟩ := kv
    by_cases hs : isStructural v1 = true
    · have hm : mergeLoop fs ((k1, v1) :: rest) = mergeLoop fs rest := by
        simp [mergeLoop, hs]
      rw [hm]
      exact ih fs (fun v hv => h v (List.mem_cons_of_mem _ hv))
    · have hk1 : k1 ≠ k := by
        intro e
        subst e
        exact hs (h v1 (List.mem_cons_self _ _))
      have hm : mergeLoop fs ((k1, v1) :: rest) = mergeLoop (objSet fs k1 v1) rest := by
        simp [mergeLoop, hs]
      rw [hm, ih (objSet fs k1 v1) (fun v hv => h v (List.mem_cons_of_mem _ hv)),
        objGet_objSet_ne k1 k hk1]

lemma mergeLoop_char (k : String) : ∀ (M fs : List (String × JSVal)),
    objGet (mergeLoop fs M) k = objGet fs k
    ∨ ∃ v, (k, v) ∈ M ∧ isStructural v = false ∧ objGet (mergeLoop fs M) k = v := by
  intro M
  induction M with
  | nil => intro fs; exact Or.inl rfl
  | cons kv rest ih =>
    intro fs
    obtain ⟨k1, v1⟩ := kv
    by_cases hs : isStructural v1 = true
    · have hm : mergeLoop fs ((k1, v1) :: rest) = mergeLoop fs rest := by
        simp [mergeLoop, hs]
      rw [hm]
      rcases ih fs with h | ⟨v, hv, hsv, he⟩
      · exact Or.inl h
      · exact Or.inr ⟨v, List.mem_cons_of_mem _ hv, hsv, he⟩
    · have hm : mergeLoop fs ((k1, v1) :: rest) = mergeLoop (objSet fs k1 v1) rest := by
        simp [mergeLoop, hs]
      rw [hm]
      rcases ih (objSet fs k1 v1) with h | ⟨v, hv, hsv, he⟩
      · by_cases hk : k1 = k
        · subst hk
          refine Or.inr ⟨v1, List.mem_cons_self _ _, by simpa using hs, ?_⟩
          rw [h, objGet_objSet_eq]
        · exact Or.inl (by rw [h, objGet_objSet_ne k1 k hk])
      · exact Or.inr ⟨v, List.mem_cons_of_mem _ hv, hsv, he⟩

/-- C2 counterexample: at path `a` the current value of field `y` is the
array `[1, 2]`, yet merging the proposed mapping `y = 5` overwrites it
with the primitive 5 — the function does alter a field whose current
value is an array when the proposed value for that same field is a
primitive. -/
theorem mergePrimitivesAtPath_cex :
    getValueByPath
        (JSVal.obj [("a", JSVal.obj [("y", JSVal.arr [JSVal.num 1, JSVal.num 2])])])
        (some [Seg.key "a", Seg.key "y"])
      = JSVal.arr [JSVal.num 1, JSVal.num 2]
    ∧ getValueByPath
        (mergePrimitivesAtPath
          (JSVal.obj [("a", JSVal.obj [("y", JSVal.arr [JSVal.num 1, JSVal.num 2])])])
          (some [Seg.key "a"]) [("y", JSVal.num 5)])
        (some [Seg.key "a", Seg.key "y"])
      = JSVal.num 5
    ∧ getValueByPath
        (mergePrimitivesAtPath
          (JSVal.obj [("a", JSVal.obj [("y", JSVal.arr [JSVal.num 1, JSVal.num 2])])])
          (some [Seg.key "a"]) [("y", JSVal.num 5)])
        (some [Seg.key "a", Seg.key "y"])
      ≠ getValueByPath
        (JSVal.obj [("a", JSVal.obj [("y", JSVal.arr [JSVal.num 1, JSVal.num 2])])])
        (some [Seg.key "a", Seg.key "y"]) := by
  refine ⟨rfl, rfl, ?_⟩
  intro h
  exact JSVal.noConfusion (h.symm.trans (rfl : getValueByPath
    (mergePrimitivesAtPath
      (JSVal.obj [("a", JSVal.obj [("y", JSVal.arr [JSVal.num 1, JSVal.num 2])])])
      (some [Seg.key "a"]) [("y", JSVal.num 5)])
    (some [Seg.key "a", Seg.key "y"]) = JSVal.num 5))

/-- C2 amended: when the value at the path is an object, the merge never
removes a field and never lets a structural (object or array) proposal
land: a field all of whose proposed values in the mapping are objects or
arrays reads back unchanged through the merged document (so structural
proposals are silently skipped and never introduce or alter a field),
and in general each field of the merged object either keeps its current
value or takes a non-structural value proposed for it in the mapping.
A field whose current value is an object or array can still be altered,
but only by a primitive or null proposal for that very field. -/
theorem mergePrimitivesAtPath_frame (R : JSVal) (P : List Seg)
    (M fs : List (String × JSVal))
    (htarget : getValueByPath R (some P) = JSVal.obj fs) :
    (∀ k, (∀ v, (k, v) ∈ M → isStructural v = true) →
      getValueByPath (mergePrimitivesAtPath R (some P) M) (some (P ++ [Seg.key k]))
        = getValueByPath R (some (P ++ [Seg.key k])))
    ∧ (∀ k, objGet (mergeLoop fs M) k = objGet fs k
        ∨ ∃ v, (k, v) ∈ M ∧ isStructural v = false ∧ objGet (mergeLoop fs M) k = v) := by
  have hbase : mergePrimitivesAtPath R (some P) M
      = setValueByPath R (some P) (JSVal.obj (mergeLoop fs M)) := by
    unfold mergePrimitivesAtPath
    rw [htarget]
    rfl
  constructor
  · intro k hk
    rw [hbase, getValueByPath_set_append]
    have hr : getValueByPath R (some (P ++ [Seg.key k])) = objGet fs k := by
      show getLoop R (P ++ [Seg.key k]) = objGet fs k
      rw [getLoop_append]
      have hP : getLoop R P = JSVal.obj fs := htarget
      rw [hP]
      show getLoop (objGet fs k) [] = objGet fs k
      exact getLoop_nil _
    rw [hr]
    show getLoop (objGet (mergeLoop fs M) k) [] = objGet fs k
    rw [getLoop_nil]
    exact mergeLoop_preserve k M fs hk
  · intro k
    exact mergeLoop_char k M fs

/-- C2 witness: with root with object `a` containing only `x = 1`, and a
proposed mapping whose only entry for `y` is an array, field `y` of the
object at path `a` reads the same before and after the merge, and the
merged object satisfies the per-field characterization. -/
theorem mergePrimitivesAtPath_frame_witness :
    getValueByPath
        (mergePrimitivesAtPath (JSVal.obj [("a", JSVal.obj [("x", JSVal.num 1)])])
          (some [Seg.key "a"]) [("y", JSVal.arr [])])
        (some [Seg.key "a", Seg.key "y"])
      = getValueByPath (JSVal.obj [("a", JSVal.obj [("x", JSVal.num 1)])])
        (some [Seg.key "a", Seg.key "y"]) :=
  (mergePrimitivesAtPath_frame (JSVal.obj [("a", JSVal.obj [("x", JSVal.num 1)])])
    [Seg.key "a"] [("y", JSVal.arr [])] [("x", JSVal.num 1)] rfl).1 "y"
    (by intro v hv; simp at hv; subst hv; rfl)

lemma mergeLoop_eq_foldl : ∀ (M base : List (String × JSVal)),
    mergeLoop base M
      = M.foldl (fun b kv => if isStructural kv.2 then b else objSet b kv.1 kv.2) base := by
  intro M
  induction M with
  | nil => intro base; rfl
  | cons kv rest ih =>
    intro base
    obtain ⟨k, v⟩ := kv
    by_cases hs : isStructural v = true <;> simp [mergeLoop, hs, ih]

/-- C3: `mergePrimitivesAtPath` coincides with the specified composition
of the path reader, the primitive-only overwrite fold and the path
writer, and on the documented end-to-end example it updates `x`,
preserves the hidden array `y`, and appends `z`. -/
theorem mergePrimitivesAtPath_spec_equiv :
    (∀ (R : JSVal) (P : Option (List Seg)) (M : List (String × JSVal)),
      mergePrimitivesAtPath R P M = mergePrimitivesSpec R P M)
    ∧ mergePrimitivesAtPath
        (JSVal.obj [("a", JSVal.obj [("x", JSVal.num 1),
          ("y", JSVal.arr [JSVal.num 1, JSVal.num 2])])])
        (some [Seg.key "a"]) [("x", JSVal.num 5), ("z", JSVal.num 9)]
      = JSVal.obj [("a", JSVal.obj [("x", JSVal.num 5),
          ("y", JSVal.arr [JSVal.num 1, JSVal.num 2]), ("z", JSVal.num 9)])] := by
  constructor
  · intro R P M
    unfold mergePrimitivesAtPath mergePrimitivesSpec
    rw [mergeLoop_eq_foldl]
    cases hcur : getValueByPath R P <;> rfl
  · rfl

/-- C5: if the external document string fails to parse, or the parsed
draft has the wrong shape for the node kind (a primitive node given an
object or array, an object-like node given anything but a plain object),
the save attempt aborts atomically: `setContents` is not called (the
second component is `none`, so the document is unchanged) and the
session is returned exactly as it was, still editing with the draft
preserved. -/
theorem saveAttempt_aborts (st : ModalSession) (rootParse draftParse : Option JSVal)
    (rows : Option (List Row)) (path : Option (List Seg))
    (h : rootParse = none
      ∨ ∃ p, draftParse = some p ∧ wrongShape (isPrimitiveNode rows) p = true) :
    saveAttempt st rootParse draftParse rows path = (st, none) := by
  rcases h with h | ⟨p, hp, hw⟩
  · subst h; rfl
  · subst hp
    cases rootParse with
    | none => rfl
    | some root =>
      by_cases hprim : isPrimitiveNode rows = true
      · have hw2 : isStructural p = true := by
          unfold wrongShape at hw
          rw [hprim] at hw
          simpa using hw
        show applySave st (saveClick (some root) (some p) rows path) = (st, none)
        unfold saveClick
        rw [hprim]
        cases p with
        | obj fs => rfl
        | arr xs => rfl
        | undef => simp [isStructural] at hw2
        | null => simp [isStructural] at hw2
        | bool b => simp [isStructural] at hw2
        | num n => simp [isStructural] at hw2
        | str s => simp [isStructural] at hw2
      · have hprim2 : isPrimitiveNode rows = false := by simpa using hprim
        have hw2 : isPlainObj p = false := by
          unfold wrongShape at hw
          rw [hprim2] at hw
          simpa using hw
        show applySave st (saveClick (some root) (some p) rows path) = (st, none)
        unfold saveClick
        rw [hprim2]
        cases p with
        | obj fs => simp [isPlainObj] at hw2
        | arr xs => rfl
        | undef => rfl
        | null => rfl
        | bool b => rfl
        | num n => rfl
        | str s => rfl

/-- C5 witness: the documented rejected case, an object-like node (one
keyed row) whose draft parses to the array `[1,2,3]`: the attempt
returns the session unchanged (still editing, draft intact) and does
not call `setContents`. -/
theorem saveAttempt_aborts_witness :
    saveAttempt (ModalSession.mk true "[1,2,3]") (some (JSVal.obj [("a", JSVal.obj [])]))
      (some (JSVal.arr [JSVal.num 1, JSVal.num 2, JSVal.num 3]))
      (some [Row.mk (some "a") (JSVal.num 1) "primitive"]) (some [Seg.key "a"])
      = (ModalSession.mk true "[1,2,3]", none) :=
  saveAttempt_aborts (ModalSession.mk true "[1,2,3]") (some (JSVal.obj [("a", JSVal.obj [])]))
    (some (JSVal.arr [JSVal.num 1, JSVal.num 2, JSVal.num 3]))
    (some [Row.mk (some "a") (JSVal.num 1) "primitive"]) (some [Seg.key "a"])
    (Or.inr ⟨JSVal.arr [JSVal.num 1, JSVal.num 2, JSVal.num 3], rfl, rfl⟩)

lemma addRow_foldl_filter : ∀ (rs : List Row) (o : List (String × JSVal)),
    rs.foldl addRow o
      = (rs.filter (fun r => keyTruthy r.key
            && !(r.rtype = "array" ∨ r.rtype = "object" : Bool))).foldl
          (fun o r => objSet o (r.key.getD "") r.value) o := by
  intro rs
  induction rs with
  | nil => intro o; rfl
  | cons r t ih =>
    intro o
    by_cases hc : (keyTruthy r.key && !(r.rtype = "array" ∨ r.rtype = "object" : Bool)) = true
    · obtain ⟨hkt, hty⟩ : keyTruthy r.key = true ∧ ¬(r.rtype = "array" ∨ r.rtype = "object") := by
        simpa using hc
      have ha : addRow o r = objSet o (r.key.getD "") r.value := by
        unfold addRow
        rw [if_neg hty]
        cases hk : r.key with
        | none => rw [hk] at hkt; simp [keyTruthy] at hkt
        | some k =>
          rw [hk] at hkt
          have hkne : ¬(k = "") := by simpa [keyTruthy] using hkt
          simp [hkne]
      simp only [List.foldl_cons, List.filter_cons, hc, if_true, ha]
      exact ih (objSet o (r.key.getD "") r.value)
    · have ha : addRow o r = o := by
        unfold addRow
        by_cases hty : r.rtype = "array" ∨ r.rtype = "object"
        · rw [if_pos hty]
        · rw [if_neg hty]
          have hkt : keyTruthy r.key = false := by
            by_cases h : keyTruthy r.key = true
            · exfalso
              apply hc
              rw [h]
              simp [hty]
            · simpa using h
          cases hk : r.key with
          | none => rfl
          | some k =>
            rw [hk] at hkt
            have hke : k = "" := by simpa [keyTruthy] using hkt
            simp [hke]
      have hc2 : (keyTruthy r.key
          && !(r.rtype = "array" ∨ r.rtype = "object" : Bool)) = false := by
        simpa using hc
      simp only [List.foldl_cons, List.filter_cons, hc2, Bool.false_eq_true, if_false, ha]
      exact ih o

/-- C6: `normalizeNodeData` is a pure function of the row list; no rows
(absent or empty) give the two-character object literal, a single
keyless row renders its raw value as text, and every other row list
serializes, with 2-space indentation, the object built in row order
from exactly the keyed rows not tagged array or object. -/
theorem normalizeNodeData_spec :
    normalizeNodeData none = "\x7b\x7d"
    ∧ normalizeNodeData (some []) = "\x7b\x7d"
    ∧ normalizeNodeData (some [Row.mk none (JSVal.num 42) "primitive"]) = "42"
    ∧ normalizeNodeData (some [Row.mk (some "a") (JSVal.num 1) "primitive",
        Row.mk (some "b") (JSVal.arr []) "array"]) = "\x7b\n  \"a\": 1\n\x7d"
    ∧ (∀ rs : List Row, rs ≠ [] → ¬(rs.length = 1 ∧ keyTruthy (headKey rs) = false) →
        normalizeNodeData (some rs) = stringifyV (JSVal.obj (rowsObjectSpec rs)) 0) := by
  refine ⟨rfl, rfl, rfl, rfl, ?_⟩
  intro rs h1 h2
  have hlen : ¬(rs.length = 0) := by
    intro h0
    exact h1 (List.length_eq_zero.mp h0)
  show (if rs.length = 0 then "\x7b\x7d"
    else if rs.length = 1 ∧ keyTruthy (headKey rs) = false then jsToString (headValue rs)
    else stringifyV (JSVal.obj (rs.foldl addRow [])) 0)
    = stringifyV (JSVal.obj (rowsObjectSpec rs)) 0
  rw [if_neg hlen, if_neg h2, addRow_foldl_filter rs []]
  rfl

/-- C6 witness: the two-row example, one primitive keyed row and one
array-tagged row, goes through the general serialization branch and
matches the specified object construction. -/
theorem normalizeNodeData_spec_witness :
    normalizeNodeData (some [Row.mk (some "a") (JSVal.num 1) "primitive",
        Row.mk (some "b") (JSVal.arr []) "array"])
      = stringifyV (JSVal.obj (rowsObjectSpec [Row.mk (some "a") (JSVal.num 1) "primitive",
          Row.mk (some "b") (JSVal.arr []) "array"])) 0 :=
  normalizeNodeData_spec.2.2.2.2
    [Row.mk (some "a") (JSVal.num 1) "primitive", Row.mk (some "b") (JSVal.arr []) "array"]
    (List.cons_ne_nil _ _) (by decide)

lemma segsEq_iff : ∀ (a b : List Seg), segsEq a b = true ↔ a = b := by
  intro a
  induction a with
  | nil => intro b; cases b <;> simp [segsEq]
  | cons x xs ih =>
    intro b
    cases b with
    | nil => simp [segsEq]
    | cons y ys => simp [segsEq, ih ys]

lemma pathsEqual_some_iff (A B : List Seg) :
    pathsEqual (some A) (some B) = true ↔ A = B := by
  by_cases hl : A.length = B.length
  · have h : pathsEqual (some A) (some B) = segsEq A B := by
      simp [pathsEqual, hl]
    rw [h, segsEq_iff]
  · have h : pathsEqual (some A) (some B) = false := by
      simp [pathsEqual, hl]
    rw [h]
    constructor
    · intro h2; exact absurd h2 (by simp)
    · intro e; exact absurd (congrArg List.length e) hl

/-- C7: two present paths are equal under `pathsEqual` exactly when they
have the same length and agree segment by segment (segments compare by
value and kind, an index never equals a key); every path equals itself,
and the numeric path `[1]` differs from the string path `["1"]`. -/
theorem pathsEqual_spec :
    (∀ A B : List Seg, pathsEqual (some A) (some B) = true
        ↔ (A.length = B.length ∧ ∀ i, A.get? i = B.get? i))
    ∧ (∀ P : List Seg, pathsEqual (some P) (some P) = true)
    ∧ pathsEqual (some [Seg.idx 1]) (some [Seg.key "1"]) = false := by
  refine ⟨?_, ?_, rfl⟩
  · intro A B
    rw [pathsEqual_some_iff]
    constructor
    · intro e; subst e; exact ⟨rfl, fun _ => rfl⟩
    · rintro ⟨hl, hg⟩
      exact List.ext_get? hg
  · intro P
    exact (pathsEqual_some_iff P P).mpr rfl

/-- C7 witness: a concrete mixed path equals itself under the
characterization. -/
theorem pathsEqual_spec_witness :
    pathsEqual (some [Seg.idx 2, Seg.key "b"]) (some [Seg.idx 2, Seg.key "b"]) = true :=
  (pathsEqual_spec.1 [Seg.idx 2, Seg.key "b"] [Seg.idx 2, Seg.key "b"]).mpr
    ⟨rfl, fun _ => rfl⟩

lemma bracketJoin : ∀ (l : List Seg), l ≠ [] →
    "[" ++ joinSep "][" (l.map segStr) ++ "]" = bracketAll l := by
  intro l
  induction l with
  | nil => intro h; exact absurd rfl h
  | cons s t ih =>
    intro _
    cases t with
    | nil =>
      show "[" ++ segStr s ++ "]" = bracketAll [s]
      have h3 : bracketAll [s] = "[" ++ segStr s ++ "]" ++ "" := rfl
      rw [h3, String.append_empty]
    | cons y t2 =>
      have h1 : joinSep "][" (List.map segStr (s :: y :: t2))
          = segStr s ++ "][" ++ joinSep "][" (List.map segStr (y :: t2)) := rfl
      have h3 : bracketAll (s :: y :: t2)
          = "[" ++ segStr s ++ "]" ++ bracketAll (y :: t2) := rfl
      rw [h1, h3, ← ih (List.cons_ne_nil y t2)]
      have assoc6 : ∀ a b c d e f : String,
          (a ++ ((b ++ (c ++ d)) ++ e)) ++ f = ((a ++ b) ++ c) ++ ((d ++ e) ++ f) := by
        intro a b c d e f
        simp [String.append_assoc]
      exact assoc6 "[" (segStr s) "]" "["
        (joinSep "][" (List.map segStr (y :: t2))) "]"

/-- C9: an absent or empty path renders as the dollar sign alone, and a
present path renders as the dollar sign followed by one bracketed
segment per element in order, indices bare and keys double-quoted, as
on the documented example. -/
theorem jsonPathToString_spec :
    jsonPathToString none = "$"
    ∧ jsonPathToString (some []) = "$"
    ∧ (∀ l : List Seg, l ≠ [] → jsonPathToString (some l) = "$" ++ bracketAll l)
    ∧ jsonPathToString (some [Seg.key "customer", Seg.idx 0]) = "$[\"customer\"][0]" := by
  refine ⟨rfl, rfl, ?_, rfl⟩
  intro l hl
  cases l with
  | nil => exact absurd rfl hl
  | cons s t =>
    have h0 : jsonPathToString (some (s :: t))
        = "$[" ++ joinSep "][" ((s :: t).map segStr) ++ "]" := rfl
    rw [h0, ← bracketJoin (s :: t) (List.cons_ne_nil s t)]
    have assoc4 : ∀ a b c d : String, ((a ++ b) ++ c) ++ d = a ++ ((b ++ c) ++ d) := by
      intro a b c d
      simp [String.append_assoc]
    exact assoc4 "$" "[" (joinSep "][" (List.map segStr (s :: t))) "]"

/-- C9 witness: a two-segment path renders as the dollar sign followed
by its two bracketed segments. -/
theorem jsonPathToString_spec_witness :
    jsonPathToString (some [Seg.key "customer", Seg.idx 0])
      = "$" ++ bracketAll [Seg.key "customer", Seg.idx 0] :=
  jsonPathToString_spec.2.2.1 [Seg.key "customer", Seg.idx 0]
    (List.cons_ne_nil (Seg.key "customer") [Seg.idx 0])
